import Mathlib

/-!
Verification of the boosty-downloader repository core against its
natural-language specification.  The Python sources are shallowly
embedded: strings become lists of characters, SQLite tables become
lists of rows, asynchronous I/O becomes explicit event traces, and
fallible code returns Except values.
-/

namespace BoostyDownloader

/-- Calendar timestamp as carried by the datetime objects in the source
(microseconds are irrelevant here: the cache formats timestamps with a
strftime format that drops them). -/
structure DateTime where
  year : Nat
  month : Nat
  day : Nat
  hour : Nat
  minute : Nat
  second : Nat
deriving DecidableEq, Repr

/-- Zero padding to two digits, as the strftime codes %m %d %H %M %S produce. -/
def pad2 (n : Nat) : String :=
  if n < 10 then "0" ++ toString n else toString n

/-- Zero padding to four digits for the strftime code %Y. -/
def pad4 (n : Nat) : String :=
  if n < 10 then "000" ++ toString n
  else if n < 100 then "00" ++ toString n
  else if n < 1000 then "0" ++ toString n
  else toString n

/-- updated_at.strftime of caching/post_cache.py line 48 and line 97,
format %Y-%m-%dT%H:%M:%S. -/
def strftimeIso (dt : DateTime) : String :=
  pad4 dt.year ++ "-" ++ pad2 dt.month ++ "-" ++ pad2 dt.day ++ "T" ++
    pad2 dt.hour ++ ":" ++ pad2 dt.minute ++ ":" ++ pad2 dt.second

/-- created_at.date() rendering used when the source builds folder names. -/
def dateIso (dt : DateTime) : String :=
  pad4 dt.year ++ "-" ++ pad2 dt.month ++ "-" ++ pad2 dt.day

/-!  C7: the path sanitizer of infrastructure/path_sanitizer.py.  -/

/-- The unsafe filesystem characters matched by the regular expression
of infrastructure/path_sanitizer.py line 9. -/
def unsafeChars : List Char := ['<', '>', ':', '"', '/', '\\', '|', '?', '*']

/-- re.sub(unsafe_chars, empty, string) of infrastructure/path_sanitizer.py
line 10: every occurrence of an unsafe character is removed. -/
def removeUnsafe (s : List Char) : List Char :=
  s.filter (fun c => !(unsafeChars.contains c))

/-- Length in bytes of the UTF-8 encoding of a character sequence,
sanitized.encode of infrastructure/path_sanitizer.py line 12. -/
def utf8Len (s : List Char) : Nat := (s.map Char.utf8Size).sum

/-- sanitized.encode()[:max_bytes].decode(errors ignore) of
infrastructure/path_sanitizer.py lines 13-15: cutting a valid UTF-8 byte
string after max_bytes bytes keeps exactly the longest character prefix
that fits, the decoder then dropping the leading bytes of the one
character the cut may have split. -/
def truncateBytes : List Char → Nat → List Char
  | [], _ => []
  | c :: rest, n =>
      if c.utf8Size ≤ n then c :: truncateBytes rest (n - c.utf8Size) else []

/-- Python str.rstrip character test (ASCII whitespace). -/
def isPySpace (c : Char) : Bool :=
  c == ' ' || c == '\t' || c == '\n' || c == '\r' || c.val == 11 || c.val == 12

/-- sanitized.rstrip() of infrastructure/path_sanitizer.py line 16. -/
def rstrip (s : List Char) : List Char :=
  (s.reverse.dropWhile isPySpace).reverse

/-- sanitize_string of infrastructure/path_sanitizer.py lines 6-18. -/
def sanitize_string (s : List Char) (max_bytes : Nat) : List Char :=
  let sanitized := removeUnsafe s
  if utf8Len sanitized > max_bytes then
    rstrip (truncateBytes sanitized max_bytes)
  else sanitized

theorem mem_truncateBytes {c : Char} :
    ∀ {s : List Char} {n : Nat}, c ∈ truncateBytes s n → c ∈ s := by
  intro s
  induction s with
  | nil => intro n h; simp [truncateBytes] at h
  | cons x xs ih =>
      intro n h
      simp only [truncateBytes] at h
      by_cases hx : x.utf8Size ≤ n
      · simp [hx] at h
        rcases h with h | h
        · exact h ▸ List.mem_cons_self x xs
        · exact List.mem_cons_of_mem x (ih h)
      · simp [hx] at h

theorem truncateBytes_isPrefix :
    ∀ (s : List Char) (n : Nat), ∃ t, s = truncateBytes s n ++ t := by
  intro s
  induction s with
  | nil => intro n; exact ⟨[], rfl⟩
  | cons x xs ih =>
      intro n
      by_cases hx : x.utf8Size ≤ n
      · obtain ⟨t, ht⟩ := ih (n - x.utf8Size)
        exact ⟨t, by simp [truncateBytes, hx]; exact ht⟩
      · exact ⟨x :: xs, by simp [truncateBytes, hx]⟩

theorem utf8Len_append (a b : List Char) :
    utf8Len (a ++ b) = utf8Len a + utf8Len b := by
  simp [utf8Len]

theorem utf8Len_truncateBytes_le :
    ∀ (s : List Char) (n : Nat), utf8Len (truncateBytes s n) ≤ n := by
  intro s
  induction s with
  | nil => intro n; simp [truncateBytes, utf8Len]
  | cons x xs ih =>
      intro n
      by_cases hx : x.utf8Size ≤ n
      · have := ih (n - x.utf8Size)
        simp only [truncateBytes, hx, if_true]
        have hsum : utf8Len (x :: truncateBytes xs (n - x.utf8Size)) =
            x.utf8Size + utf8Len (truncateBytes xs (n - x.utf8Size)) := by
          simp [utf8Len]
        omega
      · simp [truncateBytes, hx, utf8Len]

theorem rstrip_isPrefix (s : List Char) :
    ∃ t, s = rstrip s ++ t := by
  refine ⟨(s.reverse.takeWhile isPySpace).reverse, ?_⟩
  have h := List.takeWhile_append_dropWhile (p := isPySpace) (l := s.reverse)
  calc s = s.reverse.reverse := by simp
    _ = (s.reverse.takeWhile isPySpace ++ s.reverse.dropWhile isPySpace).reverse := by
          rw [h]
    _ = rstrip s ++ (s.reverse.takeWhile isPySpace).reverse := by
          rw [List.reverse_append]; rfl

theorem utf8Len_rstrip_le (s : List Char) : utf8Len (rstrip s) ≤ utf8Len s := by
  obtain ⟨t, ht⟩ := rstrip_isPrefix s
  have h : utf8Len s = utf8Len (rstrip s) + utf8Len t := by
    conv_lhs => rw [ht]
    rw [utf8Len_append]
  omega

theorem mem_rstrip {c : Char} {s : List Char} (h : c ∈ rstrip s) : c ∈ s := by
  obtain ⟨t, ht⟩ := rstrip_isPrefix s
  rw [ht]
  exact List.mem_append_left t h

theorem mem_removeUnsafe {c : Char} {s : List Char} (h : c ∈ removeUnsafe s) :
    c ∈ s ∧ ¬ unsafeChars.contains c := by
  have := List.mem_filter.mp h
  exact ⟨this.1, by simpa using this.2⟩

/-- C7.  For all strings s and byte limits n, sanitize(s, n) contains no
character from the unsafe set, its UTF-8 encoding is at most n bytes, the
result is a prefix of the unsafe-filtered input (hence made of whole
characters of the input: truncation never splits a character), a string
that is already safe and within the limit is returned unchanged, and the
empty string maps to the empty string. -/
theorem c7_sanitize_string_safety (s : List Char) (n : Nat) :
    (∀ c ∈ sanitize_string s n, ¬ unsafeChars.contains c) ∧
    utf8Len (sanitize_string s n) ≤ n ∧
    (∃ t, removeUnsafe s = sanitize_string s n ++ t) ∧
    ((∀ c ∈ s, ¬ unsafeChars.contains c) → utf8Len s ≤ n →
      sanitize_string s n = s) ∧
    sanitize_string [] n = [] := by
  refine ⟨?_, ?_, ?_, ?_, ?_⟩
  · intro c hc
    unfold sanitize_string at hc
    by_cases hlen : utf8Len (removeUnsafe s) > n
    · simp only [hlen, if_true] at hc
      exact (mem_removeUnsafe (mem_truncateBytes (mem_rstrip hc))).2
    · simp only [hlen, if_false] at hc
      exact (mem_removeUnsafe hc).2
  · unfold sanitize_string
    by_cases hlen : utf8Len (removeUnsafe s) > n
    · simp only [hlen, if_true]
      exact le_trans (utf8Len_rstrip_le _) (utf8Len_truncateBytes_le _ n)
    · simp only [hlen, if_false]
      omega
  · unfold sanitize_string
    by_cases hlen : utf8Len (removeUnsafe s) > n
    · simp only [hlen, if_true]
      obtain ⟨t₁, ht₁⟩ := truncateBytes_isPrefix (removeUnsafe s) n
      obtain ⟨t₂, ht₂⟩ := rstrip_isPrefix (truncateBytes (removeUnsafe s) n)
      refine ⟨t₂ ++ t₁, ?_⟩
      conv_lhs => rw [ht₁]
      conv_lhs => rw [ht₂]
      simp
    · simp only [hlen, if_false]
      exact ⟨[], by simp⟩
  · intro hsafe hlen
    have hfix : removeUnsafe s = s := by
      apply List.filter_eq_self.mpr
      intro c hc
      simpa using hsafe c hc
    unfold sanitize_string
    rw [hfix]
    simp only [if_neg (by omega : ¬ utf8Len s > n)]
  · unfold sanitize_string
    simp [removeUnsafe, utf8Len]

/-- Witness for c7_sanitize_string_safety at a concrete input: the string
ab has no unsafe characters and fits in 200 bytes, so it is unchanged. -/
theorem c7_sanitize_string_safety_witness :
    sanitize_string ['a', 'b'] 200 = ['a', 'b'] :=
  (c7_sanitize_string_safety ['a', 'b'] 200).2.2.2.1
    (by decide) (by decide)

/-!  The SQLite post cache of caching/post_cache.py.  The table created by
_create_table (lines 35-44) has columns post_id TEXT PRIMARY KEY, title TEXT,
last_updated TEXT; it is embedded as a list of rows, INSERT OR REPLACE
deleting any row with the conflicting key before appending the new one.  -/

structure CacheRow where
  post_id : String
  title : String
  last_updated : String
deriving DecidableEq, Repr

/-- SELECT ... FROM post_cache WHERE post_id = ? followed by fetchone. -/
def lookupRow (rows : List CacheRow) (pid : String) : Option CacheRow :=
  rows.find? (fun r => r.post_id == pid)

/-- add_post_cache of caching/post_cache.py lines 46-56: the datetime is
formatted with strftime and the row is INSERT OR REPLACEd on the primary
key post_id. -/
def add_post_cache (rows : List CacheRow) (pid title : String)
    (updated_at : DateTime) : List CacheRow :=
  rows.filter (fun r => r.post_id != pid) ++ [⟨pid, title, strftimeIso updated_at⟩]

/-- Number of rows carrying a given post_id. -/
def countId (rows : List CacheRow) (pid : String) : Nat :=
  rows.countP (fun r => r.post_id == pid)

/-- One add_post_cache call, for reasoning about arbitrary call sequences. -/
structure AddOp where
  post_id : String
  title : String
  updated_at : DateTime

/-- Replay a sequence of add_post_cache calls against a table. -/
def applyAdds (rows : List CacheRow) : List AddOp → List CacheRow
  | [] => rows
  | op :: rest => applyAdds (add_post_cache rows op.post_id op.title op.updated_at) rest

theorem countId_filter_ne (rows : List CacheRow) (pid : String) :
    countId (rows.filter (fun r => r.post_id != pid)) pid = 0 := by
  simp only [countId, List.countP_eq_zero]
  intro r hr
  have := (List.mem_filter.mp hr).2
  simp only [bne_iff_ne, ne_eq] at this
  simp [this]

theorem countId_add_self (rows : List CacheRow) (pid title : String)
    (u : DateTime) : countId (add_post_cache rows pid title u) pid = 1 := by
  simp only [add_post_cache, countId, List.countP_append]
  have h0 := countId_filter_ne rows pid
  simp only [countId] at h0
  simp [h0, List.countP_cons]

theorem countId_add_le (rows : List CacheRow) (pid title : String)
    (u : DateTime) (q : String) (h : countId rows q ≤ 1) :
    countId (add_post_cache rows pid title u) q ≤ 1 := by
  by_cases hq : q = pid
  · subst hq
    simp [countId_add_self rows q title u]
  · simp only [add_post_cache, countId, List.countP_append]
    have hsub : countId (rows.filter (fun r => r.post_id != pid)) q ≤
        countId rows q := by
      simp only [countId]
      exact (List.filter_sublist rows).countP_le _
    have hone : (List.countP (fun r => r.post_id == q)
        [(⟨pid, title, strftimeIso u⟩ : CacheRow)]) = 0 := by
      simp [List.countP_cons, Ne.symm hq]
    simp only [countId] at hsub h ⊢
    omega

theorem applyAdds_countId_le (ops : List AddOp) :
    ∀ (rows : List CacheRow), (∀ q, countId rows q ≤ 1) →
      ∀ q, countId (applyAdds rows ops) q ≤ 1 := by
  induction ops with
  | nil => intro rows h q; exact h q
  | cons op rest ih =>
      intro rows h q
      exact ih _ (fun q2 => countId_add_le rows op.post_id op.title op.updated_at q2 (h q2)) q

theorem lookupRow_filter_ne (rows : List CacheRow) (pid : String) :
    lookupRow (rows.filter (fun r => r.post_id != pid)) pid = none := by
  simp only [lookupRow, List.find?_eq_none]
  intro r hr
  have := (List.mem_filter.mp hr).2
  simp only [bne_iff_ne, ne_eq] at this
  simp [this]

theorem lookupRow_append_of_none {a : List CacheRow} {pid : String}
    (h : lookupRow a pid = none) (b : List CacheRow) :
    lookupRow (a ++ b) pid = lookupRow b pid := by
  induction a with
  | nil => simp
  | cons x xs ih =>
      simp only [lookupRow, List.find?] at h ⊢
      cases hx : (x.post_id == pid) with
      | true => simp [hx] at h
      | false =>
          simp only [hx] at h ⊢
          exact ih h

theorem lookupRow_add_self (rows : List CacheRow) (pid title : String)
    (u : DateTime) :
    lookupRow (add_post_cache rows pid title u) pid =
      some ⟨pid, title, strftimeIso u⟩ := by
  unfold add_post_cache
  rw [lookupRow_append_of_none (lookupRow_filter_ne rows pid)]
  simp [lookupRow, List.find?]

/-- C10.  The table keeps at most one row per post_id after any sequence of
add_post_cache calls on an initially empty cache; immediately after
add_post_cache(post_id, title, updated_at) the row for post_id is exactly
(post_id, title, formatted updated_at) whatever the prior table was; and
repeating the same call leaves the table unchanged (idempotence). -/
theorem c10_add_post_cache_replace_idempotent :
    (∀ (ops : List AddOp) (pid : String), countId (applyAdds [] ops) pid ≤ 1) ∧
    (∀ (rows : List CacheRow) (pid title : String) (u : DateTime),
      lookupRow (add_post_cache rows pid title u) pid =
        some ⟨pid, title, strftimeIso u⟩) ∧
    (∀ (rows : List CacheRow) (pid title : String) (u : DateTime),
      add_post_cache (add_post_cache rows pid title u) pid title u =
        add_post_cache rows pid title u) := by
  refine ⟨?_, lookupRow_add_self, ?_⟩
  · intro ops pid
    exact applyAdds_countId_le ops [] (by intro q; simp [countId]) pid
  · intro rows pid title u
    unfold add_post_cache
    rw [List.filter_append]
    simp [List.filter_filter]

/-!  C1: has_same_post and the way its caller turns it into the set of
missing categories.  -/

/-- Cache database plus the on-disk folder names under the destination
directory (Path.exists checks in the source become membership here). -/
structure CacheState where
  rows : List CacheRow
  folders : List String
deriving DecidableEq, Repr

/-- cleanup_cache_by_id of caching/post_cache.py lines 157-165:
DELETE FROM post_cache WHERE post_id = ?. -/
def cleanup_cache_by_id (rows : List CacheRow) (pid : String) : List CacheRow :=
  rows.filter (fun r => r.post_id != pid)

/-- has_same_post of caching/post_cache.py lines 58-99.  Branches in source
order: no row fetched → False; cached title differs → False; current folder
absent → delete the row and False; otherwise compare the strftime-formatted
timestamp with the stored text.  The returned state is the cache after the
call. -/
def has_same_post (s : CacheState) (pid current_title : String)
    (updated_at : DateTime) (current_folder_name : String) :
    Bool × CacheState :=
  match lookupRow s.rows pid with
  | none => (false, s)
  | some row =>
      if row.title = current_title then
        if s.folders.contains current_folder_name then
          (strftimeIso updated_at == row.last_updated, s)
        else
          (false, { s with rows := cleanup_cache_by_id s.rows pid })
      else (false, s)

/-- DownloadContentTypeFilter of application/filtering.py lines 10-21
(the enum has exactly these four members; it has no audio member). -/
inductive DownloadContentTypeFilter
  | boosty_videos
  | external_videos
  | post_content
  | files
deriving DecidableEq, Repr

/-- How the caller realizes get_missing: download_manager.py lines
1106-1118 skips the whole post when has_same_post is True and otherwise
downloads every requested category, so the missing set is all-or-nothing. -/
def get_missing_code (s : CacheState) (pid title : String) (u : DateTime)
    (folder : String) (requested : List DownloadContentTypeFilter) :
    List DownloadContentTypeFilter × CacheState :=
  let r := has_same_post s pid title u folder
  (if r.1 then [] else requested, r.2)

/-- C1 counterexample.  A record for p1 is stored with last_updated
2023-01-01T12:00:00, the folder exists, and the remote timestamp differs
(2023-01-02T12:00:00).  The claim requires the record to be purged; the
code returns the requested categories verbatim but keeps the record. -/
theorem c1_stale_timestamp_no_purge_counterexample :
    strftimeIso ⟨2023, 1, 2, 12, 0, 0⟩ ≠ "2023-01-01T12:00:00" ∧
    (get_missing_code ⟨[⟨"p1", "T", "2023-01-01T12:00:00"⟩], ["f"]⟩
        "p1" "T" ⟨2023, 1, 2, 12, 0, 0⟩ "f"
        [DownloadContentTypeFilter.files]).1 =
      [DownloadContentTypeFilter.files] ∧
    lookupRow (get_missing_code ⟨[⟨"p1", "T", "2023-01-01T12:00:00"⟩], ["f"]⟩
        "p1" "T" ⟨2023, 1, 2, 12, 0, 0⟩ "f"
        [DownloadContentTypeFilter.files]).2.rows "p1" ≠ none := by
  refine ⟨by decide, by decide, by decide⟩

/-- C1 amended.  The caller-visible behaviour of the cache check: when no
record exists, or the stored title differs, or the folder is missing, or
the stored timestamp text differs from the formatted remote timestamp, all
requested categories are returned verbatim; the stored record is purged
only in the folder-missing case (never on a title or timestamp mismatch);
when everything matches the empty set is returned.  No per-category
subtraction exists: the table stores no category information. -/
theorem c1_has_same_post_characterization (s : CacheState)
    (pid title : String) (u : DateTime) (folder : String)
    (requested : List DownloadContentTypeFilter) :
    (lookupRow s.rows pid = none →
      get_missing_code s pid title u folder requested = (requested, s)) ∧
    (∀ row, lookupRow s.rows pid = some row → row.title ≠ title →
      get_missing_code s pid title u folder requested = (requested, s)) ∧
    (∀ row, lookupRow s.rows pid = some row → row.title = title →
      s.folders.contains folder = false →
      get_missing_code s pid title u folder requested =
        (requested, ⟨cleanup_cache_by_id s.rows pid, s.folders⟩)) ∧
    (∀ row, lookupRow s.rows pid = some row → row.title = title →
      s.folders.contains folder = true →
      row.last_updated ≠ strftimeIso u →
      get_missing_code s pid title u folder requested = (requested, s)) ∧
    (∀ row, lookupRow s.rows pid = some row → row.title = title →
      s.folders.contains folder = true →
      row.last_updated = strftimeIso u →
      get_missing_code s pid title u folder requested = ([], s)) := by
  refine ⟨?_, ?_, ?_, ?_, ?_⟩
  · intro hnone
    simp [get_missing_code, has_same_post, hnone]
  · intro row hrow hne
    simp [get_missing_code, has_same_post, hrow, hne]
  · intro row hrow hteq hfold
    have hmem : ¬ folder ∈ s.folders := by simpa using hfold
    simp [get_missing_code, has_same_post, hrow, hteq, hmem]
  · intro row hrow hteq hfold hne
    have hmem : folder ∈ s.folders := by simpa using hfold
    have heqf : (strftimeIso u == row.last_updated) = false := by
      simp [Ne.symm hne]
    simp [get_missing_code, has_same_post, hrow, hteq, hmem, heqf]
  · intro row hrow hteq hfold heq
    have hmem : folder ∈ s.folders := by simpa using hfold
    have heqt : (strftimeIso u == row.last_updated) = true := by
      simp [heq]
    simp [get_missing_code, has_same_post, hrow, hteq, hmem, heqt]

/-- Witness for c1_has_same_post_characterization: on the concrete stale
state of the counterexample, the timestamp-mismatch branch applies and the
requested categories come back verbatim with the state untouched. -/
theorem c1_has_same_post_characterization_witness :
    get_missing_code ⟨[⟨"p1", "T", "2023-01-01T12:00:00"⟩], ["f"]⟩
        "p1" "T" ⟨2023, 1, 2, 12, 0, 0⟩ "f"
        [DownloadContentTypeFilter.files] =
      ([DownloadContentTypeFilter.files],
        ⟨[⟨"p1", "T", "2023-01-01T12:00:00"⟩], ["f"]⟩) :=
  (c1_has_same_post_characterization
      ⟨[⟨"p1", "T", "2023-01-01T12:00:00"⟩], ["f"]⟩ "p1" "T"
      ⟨2023, 1, 2, 12, 0, 0⟩ "f" [DownloadContentTypeFilter.files]).2.2.2.1
    ⟨"p1", "T", "2023-01-01T12:00:00"⟩ (by decide) (by decide) (by decide)
    (by decide)

/-!  C2: the per-post body of BoostyDownloadManager.download_all_posts
(download_manager.py lines 1076-1151).  -/

/-- The per-post data the loop body reads: post id, the sanitized location
title, timestamps, the access flag, and the full folder name built by
_generate_post_location. -/
structure PostInfo where
  id : String
  title : String
  created_at : DateTime
  updated_at : DateTime
  has_access : Bool
  folder_name : String
deriving DecidableEq, Repr

/-- _rename_post_folder_if_needed of caching/post_cache.py lines 137-154:
rename only when the old folder exists and the new one does not. -/
def renameFolder (folders : List String) (oldName newName : String) :
    List String :=
  if oldName == newName then folders
  else if folders.contains oldName && ! folders.contains newName then
    folders.filter (fun f => f != oldName) ++ [newName]
  else folders

/-- ensure_folder_name_matches of caching/post_cache.py lines 101-135. -/
def ensure_folder_name_matches (s : CacheState) (pid current_title : String)
    (created_at : DateTime) : CacheState :=
  match lookupRow s.rows pid with
  | none => s
  | some row =>
      if row.title = current_title then s
      else
        { s with folders :=
            (renameFolder s.folders
              (dateIso created_at ++ " - " ++ row.title)
              (dateIso created_at ++ " - " ++ current_title)) }

/-- The awaited boolean result of _download_single_post. -/
inductive DlOutcome
  | success
  | failure
deriving DecidableEq, Repr

/-- The statistics dictionary of download_all_posts. -/
structure RunStats where
  downloaded : Nat
  skipped_cached : Nat
  inaccessible : Nat
  failed : Nat
deriving DecidableEq, Repr

/-- Per-post body of download_all_posts, download_manager.py lines
1086-1151.  `skipInaccessible` is the decision returned by
_handle_inaccessible_post_with_retry (True means the post stays
inaccessible and is skipped), and `outcome` abstracts the awaited result
of _download_single_post.  After a download attempt the record is added to
the cache in BOTH result branches: lines 1143-1151 carry the comment
saying failed posts are cached on purpose to avoid repeated retries. -/
def process_post (s : CacheState) (p : PostInfo) (skipInaccessible : Bool)
    (outcome : DlOutcome) (st : RunStats) : CacheState × RunStats :=
  if p.has_access = false && skipInaccessible then
    (s, { st with inaccessible := st.inaccessible + 1 })
  else
    let s1 := ensure_folder_name_matches s p.id p.title p.created_at
    let r := has_same_post s1 p.id p.title p.updated_at p.folder_name
    if r.1 then
      (r.2, { st with skipped_cached := st.skipped_cached + 1 })
    else
      let s2 := { r.2 with
        rows := add_post_cache r.2.rows p.id p.title p.updated_at }
      match outcome with
      | DlOutcome.success => (s2, { st with downloaded := st.downloaded + 1 })
      | DlOutcome.failure => (s2, { st with failed := st.failed + 1 })

/-- C2 counterexample.  An accessible post not in the cache whose download
attempt fails (result False) still gets a cache record: the run records
(p1, T, 2023-01-01T12:00:00) and counts the post as failed, so a record's
existence does not imply the categories were downloaded. -/
theorem c2_failed_download_cached_counterexample :
    (process_post ⟨[], []⟩
        ⟨"p1", "T", ⟨2023, 1, 1, 10, 0, 0⟩, ⟨2023, 1, 1, 12, 0, 0⟩,
          true, "2023-01-01 - T (p1)"⟩
        false DlOutcome.failure ⟨0, 0, 0, 0⟩).2.failed = 1 ∧
    lookupRow (process_post ⟨[], []⟩
        ⟨"p1", "T", ⟨2023, 1, 1, 10, 0, 0⟩, ⟨2023, 1, 1, 12, 0, 0⟩,
          true, "2023-01-01 - T (p1)"⟩
        false DlOutcome.failure ⟨0, 0, 0, 0⟩).1.rows "p1" =
      some ⟨"p1", "T", "2023-01-01T12:00:00"⟩ := by
  refine ⟨by decide, by decide⟩

/-- C2 amended.  Whenever an accessible post is processed and the cache
check does not report it as already downloaded, a record (id, title,
formatted updated_at) is inserted regardless of whether the download
attempt succeeded or failed: a cache record attests an attempt at that
timestamp, not a completed download. -/
theorem c2_attempt_recorded_regardless_of_outcome (s : CacheState)
    (p : PostInfo) (skip : Bool) (outcome : DlOutcome) (st : RunStats)
    (hacc : p.has_access = true)
    (hmiss : (has_same_post (ensure_folder_name_matches s p.id p.title
        p.created_at) p.id p.title p.updated_at p.folder_name).1 = false) :
    lookupRow (process_post s p skip outcome st).1.rows p.id =
      some ⟨p.id, p.title, strftimeIso p.updated_at⟩ := by
  unfold process_post
  simp only [hacc, Bool.false_and, if_neg (by simp : ¬ (false = true))]
  simp only [hmiss, Bool.false_eq_true, if_false]
  cases outcome with
  | success => simpa using lookupRow_add_self _ p.id p.title p.updated_at
  | failure => simpa using lookupRow_add_self _ p.id p.title p.updated_at

/-- Witness for c2_attempt_recorded_regardless_of_outcome at the concrete
failing download of the counterexample state. -/
theorem c2_attempt_recorded_regardless_of_outcome_witness :
    lookupRow (process_post ⟨[], []⟩
        ⟨"p1", "T", ⟨2023, 1, 1, 10, 0, 0⟩, ⟨2023, 1, 1, 12, 0, 0⟩,
          true, "2023-01-01 - T (p1)"⟩
        false DlOutcome.failure ⟨0, 0, 0, 0⟩).1.rows "p1" =
      some ⟨"p1", "T", strftimeIso ⟨2023, 1, 1, 12, 0, 0⟩⟩ :=
  c2_attempt_recorded_regardless_of_outcome ⟨[], []⟩
    ⟨"p1", "T", ⟨2023, 1, 1, 10, 0, 0⟩, ⟨2023, 1, 1, 12, 0, 0⟩,
      true, "2023-01-01 - T (p1)"⟩
    false DlOutcome.failure ⟨0, 0, 0, 0⟩ rfl (by decide)

/-!  C9: DownloadAllPostUseCase.execute
(application/use_cases/download_all_posts.py lines 43-114).  The spec
scopes OAuth token refresh out, which matches this use case: a post whose
access flag is false is skipped with a warning and nothing touches the
cache for it.  Network nondeterminism (what the per-post use case did) is
an oracle; cache writes appear as trace events.  -/

/-- The PostDTO fields the all-posts loop reads. -/
structure PostDTO where
  id : String
  title : String
  created_at : DateTime
  updated_at : DateTime
  has_access : Bool
deriving DecidableEq, Repr

/-- Observable outcome of one DownloadSinglePostUseCase.execute call under
the retry loop of lines 89-107: the post was reported cached, reported as
having no matching content, completed (reaching the post_cache.cache and
commit calls of download_single_post.py lines 165-166), or every retry
attempt raised and the post was logged as skipped. -/
inductive SinglePostOutcome
  | skippedCached
  | skippedNoContent
  | completed
  | failedAllRetries
deriving DecidableEq, Repr

/-- Externally visible events of the run, in order. -/
inductive RunEvent
  | warnNoAccess (postId : String)
  | cacheInsert (postId : String)
  | skipCachedNotice (postId : String)
  | skipNoContentNotice (postId : String)
  | errorSkipped (postId : String)
  | pageFinished (page : Nat)
deriving DecidableEq, Repr

/-- One iteration of the per-post loop (download_all_posts.py lines
60-107): an inaccessible post produces only the warning and is left
uncached; an accessible post produces the events of its single-post use
case, a cache insert happening exactly when that use case completed. -/
def runPost (p : PostDTO) (sp : PostDTO → SinglePostOutcome) :
    List RunEvent :=
  if p.has_access = false then [RunEvent.warnNoAccess p.id]
  else
    match sp p with
    | SinglePostOutcome.skippedCached => [RunEvent.skipCachedNotice p.id]
    | SinglePostOutcome.skippedNoContent => [RunEvent.skipNoContentNotice p.id]
    | SinglePostOutcome.completed => [RunEvent.cacheInsert p.id]
    | SinglePostOutcome.failedAllRetries => [RunEvent.errorSkipped p.id]

/-- The posts of one page, in order. -/
def runPosts (posts : List PostDTO) (sp : PostDTO → SinglePostOutcome) :
    List RunEvent :=
  match posts with
  | [] => []
  | p :: rest => runPost p sp ++ runPosts rest sp

/-- The pages, in order, each followed by its finished-page message. -/
def runPagesFrom (n : Nat) (pages : List (List PostDTO))
    (sp : PostDTO → SinglePostOutcome) : List RunEvent :=
  match pages with
  | [] => []
  | pg :: rest =>
      runPosts pg sp ++ [RunEvent.pageFinished n] ++ runPagesFrom (n + 1) rest sp

/-- DownloadAllPostUseCase.execute, with current_page starting at 1. -/
def execute_all_posts (pages : List (List PostDTO))
    (sp : PostDTO → SinglePostOutcome) : List RunEvent :=
  runPagesFrom 1 pages sp

theorem cacheInsert_runPost {pid : String} {p : PostDTO}
    {sp : PostDTO → SinglePostOutcome}
    (h : RunEvent.cacheInsert pid ∈ runPost p sp) :
    p.id = pid ∧ p.has_access = true := by
  unfold runPost at h
  by_cases ha : p.has_access = false
  · simp [ha] at h
  · cases hsp : sp p with
    | skippedCached => simp [ha, hsp] at h
    | skippedNoContent => simp [ha, hsp] at h
    | completed =>
        simp [ha, hsp] at h
        exact ⟨h.symm, by simpa using ha⟩
    | failedAllRetries => simp [ha, hsp] at h

theorem cacheInsert_runPosts {pid : String} {posts : List PostDTO}
    {sp : PostDTO → SinglePostOutcome}
    (h : RunEvent.cacheInsert pid ∈ runPosts posts sp) :
    ∃ p, p ∈ posts ∧ p.id = pid ∧ p.has_access = true := by
  induction posts with
  | nil => simp [runPosts] at h
  | cons p rest ih =>
      simp only [runPosts, List.mem_append] at h
      rcases h with h | h
      · exact ⟨p, List.mem_cons_self p rest, cacheInsert_runPost h⟩
      · obtain ⟨q, hq, hqp⟩ := ih h
        exact ⟨q, List.mem_cons_of_mem p hq, hqp⟩

theorem cacheInsert_runPagesFrom {pid : String} {pages : List (List PostDTO)}
    {sp : PostDTO → SinglePostOutcome} :
    ∀ {n : Nat}, RunEvent.cacheInsert pid ∈ runPagesFrom n pages sp →
      ∃ p, p ∈ pages.flatten ∧ p.id = pid ∧ p.has_access = true := by
  induction pages with
  | nil => intro n h; simp [runPagesFrom] at h
  | cons pg rest ih =>
      intro n h
      simp only [runPagesFrom, List.mem_append] at h
      rcases h with (h | h) | h
      · obtain ⟨p, hp, hpp⟩ := cacheInsert_runPosts h
        exact ⟨p, by simp [List.mem_flatten]; exact Or.inl hp, hpp⟩
      · simp at h
      · obtain ⟨p, hp, hpp⟩ := ih h
        refine ⟨p, ?_, hpp⟩
        simp only [List.flatten_cons, List.mem_append]
        exact Or.inr hp

theorem warn_runPosts {p : PostDTO} {posts : List PostDTO}
    {sp : PostDTO → SinglePostOutcome} (hmem : p ∈ posts)
    (hacc : p.has_access = false) :
    RunEvent.warnNoAccess p.id ∈ runPosts posts sp := by
  induction posts with
  | nil => simp at hmem
  | cons q rest ih =>
      simp only [runPosts, List.mem_append]
      rcases List.mem_cons.mp hmem with hq | hq
      · subst hq
        exact Or.inl (by simp [runPost, hacc])
      · exact Or.inr (ih hq)

theorem warn_runPagesFrom {p : PostDTO} {pages : List (List PostDTO)}
    {sp : PostDTO → SinglePostOutcome} (hmem : p ∈ pages.flatten)
    (hacc : p.has_access = false) :
    ∀ n, RunEvent.warnNoAccess p.id ∈ runPagesFrom n pages sp := by
  induction pages with
  | nil => intro n; simp [List.flatten_cons] at hmem
  | cons pg rest ih =>
      intro n
      simp only [runPagesFrom, List.mem_append]
      simp only [List.flatten_cons, List.mem_append] at hmem
      rcases hmem with hq | hq
      · exact Or.inl (Or.inl (warn_runPosts hq hacc))
      · exact Or.inr (ih hq (n + 1))

/-- C9.  In the all-posts run, every post whose access flag is false gets
a no-access warning and causes no cache insert, and conversely every cache
insert of the run belongs to a post whose access flag is true; an
inaccessible post is therefore left uncached for later runs. -/
theorem c9_inaccessible_posts_uncached (pages : List (List PostDTO))
    (sp : PostDTO → SinglePostOutcome) :
    (∀ p, p ∈ pages.flatten → p.has_access = false →
      RunEvent.warnNoAccess p.id ∈ execute_all_posts pages sp) ∧
    (∀ pid, RunEvent.cacheInsert pid ∈ execute_all_posts pages sp →
      ∃ p, p ∈ pages.flatten ∧ p.id = pid ∧ p.has_access = true) := by
  constructor
  · intro p hp hacc
    exact warn_runPagesFrom hp hacc 1
  · intro pid h
    exact cacheInsert_runPagesFrom h

/-- Witness for c9_inaccessible_posts_uncached: a one-page run holding one
inaccessible post emits the warning for it. -/
theorem c9_inaccessible_posts_uncached_witness :
    RunEvent.warnNoAccess "p1" ∈
      execute_all_posts
        [[⟨"p1", "T", ⟨2023, 1, 1, 0, 0, 0⟩, ⟨2023, 1, 1, 0, 0, 0⟩, false⟩]]
        (fun _ => SinglePostOutcome.completed) := by
  have h := (c9_inaccessible_posts_uncached
      [[⟨"p1", "T", ⟨2023, 1, 1, 0, 0, 0⟩, ⟨2023, 1, 1, 0, 0, 0⟩, false⟩]]
      (fun _ => SinglePostOutcome.completed)).1
    ⟨"p1", "T", ⟨2023, 1, 1, 0, 0, 0⟩, ⟨2023, 1, 1, 0, 0, 0⟩, false⟩
    (by simp [List.flatten_cons]) rfl
  exact h

/-!  C4: BoostyAPIClient.iterate_over_posts
(infrastructure/boosty_api/core/client.py lines 132-155).  The remote is a
pure function from the request offset to the parsed response; the loop
body becomes a trace of sleep, request and yield events, with fuel
bounding the unrolling of the while-True loop.  -/

/-- The extra pagination block of a posts response. -/
structure Extra where
  offset : String
  is_last : Bool
deriving DecidableEq, Repr

/-- PostsResponse as returned by get_author_posts. -/
structure PostsResponse where
  posts : List PostDTO
  extra : Extra
deriving DecidableEq, Repr

/-- Suspension points and yields of the iterator, in order. -/
inductive IterEvent
  | sleep (seconds : ℚ)
  | request (offset : Option String)
  | yieldPage (page : PostsResponse)
deriving DecidableEq, Repr

/-- Default of the delay_seconds parameter at client.py line 135. -/
def defaultDelaySeconds : ℚ := 0

/-- Default of the posts_per_page parameter at client.py line 136. -/
def defaultPostsPerPage : Nat := 5

/-- iterate_over_posts, client.py lines 141-155: sleep, request with the
current offset, yield the response, stop if is_last, else continue from
the response's offset.  `fetch` is get_author_posts as a pure oracle and
`fuel` bounds the loop unrolling. -/
def iterate_over_posts (fetch : Option String → PostsResponse) (delay : ℚ) :
    Nat → Option String → List IterEvent
  | 0, _ => []
  | fuel + 1, offset =>
      let resp := fetch offset
      IterEvent.sleep delay :: IterEvent.request offset ::
        IterEvent.yieldPage resp ::
        (if resp.extra.is_last then []
         else iterate_over_posts fetch delay fuel (some resp.extra.offset))

/-- The pages yielded by a trace, in order. -/
def yieldedPages (trace : List IterEvent) : List PostsResponse :=
  trace.filterMap fun e =>
    match e with
    | IterEvent.yieldPage p => some p
    | _ => none

/-- The request offsets of a trace, in order. -/
def requestOffsets (trace : List IterEvent) : List (Option String) :=
  trace.filterMap fun e =>
    match e with
    | IterEvent.request o => some o
    | _ => none

/-- A trace made of repeated blocks sleep-of-delay, request, yield: every
page request is preceded by exactly one sleep of the given delay. -/
def isPagedTrace (delay : ℚ) : List IterEvent → Bool
  | [] => true
  | IterEvent.sleep x :: IterEvent.request _ :: IterEvent.yieldPage _ :: rest =>
      x == delay && isPagedTrace delay rest
  | _ => false

/-- The chain of responses the loop walks: each page is fetched at the
previous page's offset, stopping at the first is_last page. -/
def pagesChain (fetch : Option String → PostsResponse) :
    Nat → Option String → List PostsResponse
  | 0, _ => []
  | fuel + 1, o =>
      fetch o ::
        (if (fetch o).extra.is_last then []
         else pagesChain fetch fuel (some (fetch o).extra.offset))

/-- The chain of request offsets the loop walks. -/
def offsetsChain (fetch : Option String → PostsResponse) :
    Nat → Option String → List (Option String)
  | 0, _ => []
  | fuel + 1, o =>
      o ::
        (if (fetch o).extra.is_last then []
         else offsetsChain fetch fuel (some (fetch o).extra.offset))

theorem getLast?_cons_ne_nil {α : Type} (a : α) {l : List α} (h : l ≠ []) :
    (a :: l).getLast? = l.getLast? := by
  cases l with
  | nil => exact absurd rfl h
  | cons b t => simp [List.getLast?_cons_cons]

theorem iterate_over_posts_succ (fetch : Option String → PostsResponse)
    (delay : ℚ) (fuel : Nat) (o : Option String) :
    iterate_over_posts fetch delay (fuel + 1) o =
      IterEvent.sleep delay :: IterEvent.request o ::
        IterEvent.yieldPage (fetch o) ::
        (if (fetch o).extra.is_last then []
         else iterate_over_posts fetch delay fuel (some (fetch o).extra.offset)) :=
  rfl

theorem pagesChain_succ (fetch : Option String → PostsResponse)
    (fuel : Nat) (o : Option String) :
    pagesChain fetch (fuel + 1) o =
      fetch o ::
        (if (fetch o).extra.is_last then []
         else pagesChain fetch fuel (some (fetch o).extra.offset)) :=
  rfl

theorem offsetsChain_succ (fetch : Option String → PostsResponse)
    (fuel : Nat) (o : Option String) :
    offsetsChain fetch (fuel + 1) o =
      o ::
        (if (fetch o).extra.is_last then []
         else offsetsChain fetch fuel (some (fetch o).extra.offset)) :=
  rfl

theorem pagesChain_ne_nil (fetch : Option String → PostsResponse) :
    ∀ (fuel : Nat) (o : Option String), fuel ≠ 0 →
      pagesChain fetch fuel o ≠ [] := by
  intro fuel o hf
  cases fuel with
  | zero => exact absurd rfl hf
  | succ k => simp [pagesChain]

theorem yieldedPages_iterate (fetch : Option String → PostsResponse)
    (delay : ℚ) :
    ∀ (fuel : Nat) (o : Option String),
      yieldedPages (iterate_over_posts fetch delay fuel o) =
        pagesChain fetch fuel o := by
  intro fuel
  induction fuel with
  | zero => intro o; simp [iterate_over_posts, pagesChain, yieldedPages]
  | succ k ih =>
      intro o
      rw [iterate_over_posts_succ, pagesChain_succ]
      by_cases hlast : (fetch o).extra.is_last
      · simp [yieldedPages, hlast]
      · rw [if_neg hlast, if_neg hlast]
        have hrec := ih (some (fetch o).extra.offset)
        simp only [yieldedPages, List.filterMap_cons] at hrec ⊢
        rw [hrec]

theorem requestOffsets_iterate (fetch : Option String → PostsResponse)
    (delay : ℚ) :
    ∀ (fuel : Nat) (o : Option String),
      requestOffsets (iterate_over_posts fetch delay fuel o) =
        offsetsChain fetch fuel o := by
  intro fuel
  induction fuel with
  | zero => intro o; simp [iterate_over_posts, offsetsChain, requestOffsets]
  | succ k ih =>
      intro o
      rw [iterate_over_posts_succ, offsetsChain_succ]
      by_cases hlast : (fetch o).extra.is_last
      · simp [requestOffsets, hlast]
      · rw [if_neg hlast, if_neg hlast]
        have hrec := ih (some (fetch o).extra.offset)
        simp only [requestOffsets, List.filterMap_cons] at hrec ⊢
        rw [hrec]

theorem dropLast_pagesChain (fetch : Option String → PostsResponse) :
    ∀ (fuel : Nat) (o : Option String),
      ∀ p ∈ (pagesChain fetch fuel o).dropLast, p.extra.is_last = false := by
  intro fuel
  induction fuel with
  | zero => intro o p hp; simp [pagesChain] at hp
  | succ k ih =>
      intro o p hp
      by_cases hlast : (fetch o).extra.is_last
      · simp [pagesChain, hlast] at hp
      · cases k with
        | zero => simp [pagesChain, hlast] at hp
        | succ m =>
            have hne := pagesChain_ne_nil fetch (m + 1)
              (some (fetch o).extra.offset) (by omega)
            rw [pagesChain_succ, if_neg hlast,
              List.dropLast_cons_of_ne_nil hne] at hp
            rcases List.mem_cons.mp hp with hq | hq
            · subst hq; simpa using hlast
            · exact ih (some (fetch o).extra.offset) p hq

theorem getLast?_pagesChain (fetch : Option String → PostsResponse) :
    ∀ (fuel : Nat) (o : Option String),
      (pagesChain fetch fuel o).length < fuel →
      ∃ p, (pagesChain fetch fuel o).getLast? = some p ∧
        p.extra.is_last = true := by
  intro fuel
  induction fuel with
  | zero => intro o h; simp at h
  | succ k ih =>
      intro o hlen
      by_cases hlast : (fetch o).extra.is_last
      · exact ⟨fetch o, by simp [pagesChain, hlast], hlast⟩
      · cases k with
        | zero => simp [pagesChain, hlast] at hlen
        | succ m =>
            have hne := pagesChain_ne_nil fetch (m + 1)
              (some (fetch o).extra.offset) (by omega)
            rw [pagesChain_succ, if_neg hlast] at hlen ⊢
            rw [getLast?_cons_ne_nil _ hne]
            apply ih
            simp only [List.length_cons] at hlen
            omega

theorem offsetsChain_eq (fetch : Option String → PostsResponse) :
    ∀ (fuel : Nat) (o : Option String), fuel ≠ 0 →
      offsetsChain fetch fuel o =
        o :: ((pagesChain fetch fuel o).dropLast.map
          (fun p => some p.extra.offset)) := by
  intro fuel
  induction fuel with
  | zero => intro o h; exact absurd rfl h
  | succ k ih =>
      intro o _
      by_cases hlast : (fetch o).extra.is_last
      · simp [offsetsChain, pagesChain, hlast]
      · cases k with
        | zero => simp [offsetsChain, pagesChain, hlast]
        | succ m =>
            have hne := pagesChain_ne_nil fetch (m + 1)
              (some (fetch o).extra.offset) (by omega)
            rw [offsetsChain_succ, pagesChain_succ, if_neg hlast, if_neg hlast,
              List.dropLast_cons_of_ne_nil hne, List.map_cons,
              ih (some (fetch o).extra.offset) (by omega)]

theorem isPagedTrace_iterate (fetch : Option String → PostsResponse)
    (delay : ℚ) :
    ∀ (fuel : Nat) (o : Option String),
      isPagedTrace delay (iterate_over_posts fetch delay fuel o) = true := by
  intro fuel
  induction fuel with
  | zero => intro o; simp [iterate_over_posts, isPagedTrace]
  | succ k ih =>
      intro o
      by_cases hlast : (fetch o).extra.is_last
      · simp [iterate_over_posts, hlast, isPagedTrace]
      · simp [iterate_over_posts, hlast, isPagedTrace, ih]

/-- Two-page feed used to exercise the iterator on concrete input. -/
def twoPageFetch : Option String → PostsResponse := fun o =>
  match o with
  | none => ⟨[], ⟨"c1", false⟩⟩
  | some _ => ⟨[], ⟨"", true⟩⟩

/-- C4 counterexample.  The delay_seconds parameter of iterate_over_posts
defaults to 0 seconds, not 2.5, and nothing enforces a 1-second minimum:
iterating a two-page feed with the default sleeps 0 seconds between the
two page requests. -/
theorem c4_default_delay_counterexample :
    defaultDelaySeconds = 0 ∧ defaultDelaySeconds < 1 ∧
    defaultDelaySeconds ≠ 5 / 2 ∧
    iterate_over_posts twoPageFetch defaultDelaySeconds 10 none =
      [IterEvent.sleep 0, IterEvent.request none,
        IterEvent.yieldPage ⟨[], ⟨"c1", false⟩⟩,
        IterEvent.sleep 0, IterEvent.request (some "c1"),
        IterEvent.yieldPage ⟨[], ⟨"", true⟩⟩] := by
  refine ⟨rfl, by norm_num [defaultDelaySeconds],
    by norm_num [defaultDelaySeconds], by rfl⟩

/-- C4 amended.  The iterator yields pages in the order of the offset
chain (the first request carries no offset, each later one the previous
page's offset), sleeps delay_seconds before every page request — hence
between any two consecutive requests — and terminates exactly at the
first page whose is_last flag is true (no page is yielded after an
is_last page, and a run that stops before exhausting its fuel stops on an
is_last page); the delay parameter itself defaults to 0 at the iterator,
the 2.5-second default with 1-second minimum being a CLI-level option the
iterator does not see. -/
theorem c4_iterate_pagination_amended (fetch : Option String → PostsResponse)
    (delay : ℚ) (fuel : Nat) :
    (∀ p ∈ (yieldedPages (iterate_over_posts fetch delay fuel none)).dropLast,
      p.extra.is_last = false) ∧
    ((yieldedPages (iterate_over_posts fetch delay fuel none)).length < fuel →
      ∃ p, (yieldedPages (iterate_over_posts fetch delay fuel none)).getLast? =
          some p ∧ p.extra.is_last = true) ∧
    isPagedTrace delay (iterate_over_posts fetch delay fuel none) = true ∧
    (fuel ≠ 0 →
      requestOffsets (iterate_over_posts fetch delay fuel none) =
        none ::
          ((yieldedPages (iterate_over_posts fetch delay fuel none)).dropLast.map
            (fun p => some p.extra.offset))) ∧
    defaultDelaySeconds = 0 := by
  have hy := yieldedPages_iterate fetch delay fuel none
  have hr := requestOffsets_iterate fetch delay fuel none
  refine ⟨?_, ?_, isPagedTrace_iterate fetch delay fuel none, ?_, rfl⟩
  · rw [hy]; exact dropLast_pagesChain fetch fuel none
  · rw [hy]; exact getLast?_pagesChain fetch fuel none
  · intro hf
    rw [hr, hy]
    exact offsetsChain_eq fetch fuel none hf

/-- Witness for c4_iterate_pagination_amended on the concrete two-page
feed: the run stops before its fuel is exhausted, so its last yielded page
carries is_last true, and its requests follow the offset chain. -/
theorem c4_iterate_pagination_amended_witness :
    (∃ p, (yieldedPages (iterate_over_posts twoPageFetch
        defaultDelaySeconds 10 none)).getLast? = some p ∧
      p.extra.is_last = true) ∧
    requestOffsets (iterate_over_posts twoPageFetch
        defaultDelaySeconds 10 none) = [none, some "c1"] := by
  have h := c4_iterate_pagination_amended twoPageFetch defaultDelaySeconds 10
  refine ⟨h.2.1 (by decide), ?_⟩
  rw [h.2.2.2.1 (by decide)]
  decide

/-!  C6: the video quality ranker.  The module
download_manager/ok_video_ranking.py is absent from src/ (only its tests
in test/boosty_downloader/download_manager/ok_video_ranking_test.py and
its callers remain), so get_best_video is modelled from the spec and
checked against the values the test pins down.  -/

/-- OkVideoType of boosty_api/models/post/post_data_types/
post_data_ok_video.py lines 11-32: the quality tiers plus the
adaptive/live/streaming tiers. -/
inductive OkVideoType
  | live_playback_dash
  | live_playback_hls
  | live_ondemand_hls
  | live_dash
  | live_hls
  | hls
  | dash
  | dash_uni
  | live_cmaf
  | ultra_hd
  | quad_hd
  | full_hd
  | high
  | medium
  | low
  | tiny
  | lowest
deriving DecidableEq, Repr

/-- OkVideoUrl of post_data_ok_video.py lines 35-39: a link, possibly
empty, for one rendition tier. -/
structure OkVideoUrl where
  url : String
  type : OkVideoType
deriving DecidableEq, Repr

/-- Modelled from the spec: get_quality_ranking of the absent
download_manager/ok_video_ranking.py.  Spec 4.2 orders the eight quality
tiers ultra_hd down to lowest and excludes adaptive/live/streaming tiers
from selection; the in-src test (ok_video_ranking_test.py lines 39-45)
pins ultra_hd to 17 and lowest to 10 with quad_hd and full_hd next from
the top. -/
def qualityRank : OkVideoType → Option Nat
  | OkVideoType.ultra_hd => some 17
  | OkVideoType.quad_hd => some 16
  | OkVideoType.full_hd => some 15
  | OkVideoType.high => some 14
  | OkVideoType.medium => some 13
  | OkVideoType.low => some 12
  | OkVideoType.tiny => some 11
  | OkVideoType.lowest => some 10
  | _ => none

/-- Numeric rank of a rendition, zero for excluded tiers. -/
def rankNat (u : OkVideoUrl) : Nat := (qualityRank u.type).getD 0

/-- A rendition takes part in selection iff its URL is non-empty and its
tier is a quality tier. -/
def eligibleUrl (u : OkVideoUrl) : Bool :=
  u.url != "" && (qualityRank u.type).isSome

/-- First rendition of maximal rank. -/
def argmaxRank : List OkVideoUrl → Option OkVideoUrl
  | [] => none
  | x :: xs =>
      match argmaxRank xs with
      | none => some x
      | some y => if rankNat x < rankNat y then some y else some x

/-- First rendition of minimal rank. -/
def argminRank : List OkVideoUrl → Option OkVideoUrl
  | [] => none
  | x :: xs =>
      match argminRank xs with
      | none => some x
      | some y => if rankNat y < rankNat x then some y else some x

/-- Does a rendition rank at or below the preferred tier? -/
def belowPref (preferred : OkVideoType) (u : OkVideoUrl) : Bool :=
  rankNat u ≤ (qualityRank preferred).getD 0

/-- Modelled from the spec: get_best_video of the absent
download_manager/ok_video_ranking.py.  Spec 4.2: among renditions with a
non-empty URL on a quality tier, choose the one whose tier is closest to
the preferred tier without exceeding it; if none is at or below the
preferred tier, choose the lowest tier above it; if nothing is eligible,
return none. -/
def get_best_video (player_urls : List OkVideoUrl) (preferred : OkVideoType) :
    Option OkVideoUrl :=
  match argmaxRank ((player_urls.filter eligibleUrl).filter
      (belowPref preferred)) with
  | some u => some u
  | none => argminRank (player_urls.filter eligibleUrl)

theorem argmaxRank_eq_none {l : List OkVideoUrl} :
    argmaxRank l = none ↔ l = [] := by
  cases l with
  | nil => simp [argmaxRank]
  | cons x xs =>
      simp only [argmaxRank]
      cases argmaxRank xs with
      | none => simp
      | some y =>
          by_cases h : rankNat x < rankNat y <;> simp [h]

theorem argminRank_eq_none {l : List OkVideoUrl} :
    argminRank l = none ↔ l = [] := by
  cases l with
  | nil => simp [argminRank]
  | cons x xs =>
      simp only [argminRank]
      cases argminRank xs with
      | none => simp
      | some y =>
          by_cases h : rankNat y < rankNat x <;> simp [h]

theorem argmaxRank_spec :
    ∀ {l : List OkVideoUrl} {u : OkVideoUrl}, argmaxRank l = some u →
      u ∈ l ∧ ∀ v ∈ l, rankNat v ≤ rankNat u := by
  intro l
  induction l with
  | nil => intro u h; simp [argmaxRank] at h
  | cons x xs ih =>
      intro u h
      simp only [argmaxRank] at h
      cases hm : argmaxRank xs with
      | none =>
          rw [hm] at h
          have hx : x = u := by simpa using h
          subst hx
          have hnil : xs = [] := argmaxRank_eq_none.mp hm
          subst hnil
          exact ⟨List.mem_cons_self x [], by simp⟩
      | some y =>
          rw [hm] at h
          obtain ⟨hy, hmax⟩ := ih hm
          by_cases hlt : rankNat x < rankNat y
          · have heq : y = u := by simpa [hlt] using h
            subst heq
            refine ⟨List.mem_cons_of_mem x hy, ?_⟩
            intro v hv
            rcases List.mem_cons.mp hv with hv | hv
            · subst hv; omega
            · exact hmax v hv
          · have heq : x = u := by simpa [hlt] using h
            subst heq
            refine ⟨List.mem_cons_self x xs, ?_⟩
            intro v hv
            rcases List.mem_cons.mp hv with hv | hv
            · subst hv; omega
            · have := hmax v hv; omega

theorem argminRank_spec :
    ∀ {l : List OkVideoUrl} {u : OkVideoUrl}, argminRank l = some u →
      u ∈ l ∧ ∀ v ∈ l, rankNat u ≤ rankNat v := by
  intro l
  induction l with
  | nil => intro u h; simp [argminRank] at h
  | cons x xs ih =>
      intro u h
      simp only [argminRank] at h
      cases hm : argminRank xs with
      | none =>
          rw [hm] at h
          have hx : x = u := by simpa using h
          subst hx
          have hnil : xs = [] := argminRank_eq_none.mp hm
          subst hnil
          exact ⟨List.mem_cons_self x [], by simp⟩
      | some y =>
          rw [hm] at h
          obtain ⟨hy, hmin⟩ := ih hm
          by_cases hlt : rankNat y < rankNat x
          · have heq : y = u := by simpa [hlt] using h
            subst heq
            refine ⟨List.mem_cons_of_mem x hy, ?_⟩
            intro v hv
            rcases List.mem_cons.mp hv with hv | hv
            · subst hv; omega
            · exact hmin v hv
          · have heq : x = u := by simpa [hlt] using h
            subst heq
            refine ⟨List.mem_cons_self x xs, ?_⟩
            intro v hv
            rcases List.mem_cons.mp hv with hv | hv
            · subst hv; omega
            · have := hmin v hv; omega

/-- C6.  For every rendition list and preferred quality tier q, the
ranker considers only renditions with a non-empty URL on a quality tier
(adaptive/live/streaming are excluded); it returns none exactly when no
rendition is eligible, and otherwise returns an eligible rendition that
either is the highest-ranked one at or below q, or — when every eligible
rendition ranks above q — the lowest-ranked eligible one. -/
theorem c6_get_best_video_selection (player_urls : List OkVideoUrl)
    (preferred : OkVideoType) (hq : (qualityRank preferred).isSome = true) :
    (get_best_video player_urls preferred = none ↔
      player_urls.filter eligibleUrl = []) ∧
    (∀ u, get_best_video player_urls preferred = some u →
      u ∈ player_urls ∧ eligibleUrl u = true ∧
      ((rankNat u ≤ (qualityRank preferred).getD 0 ∧
        ∀ v ∈ player_urls.filter eligibleUrl,
          rankNat v ≤ (qualityRank preferred).getD 0 → rankNat v ≤ rankNat u) ∨
       ((∀ v ∈ player_urls.filter eligibleUrl,
          (qualityRank preferred).getD 0 < rankNat v) ∧
        ∀ v ∈ player_urls.filter eligibleUrl, rankNat u ≤ rankNat v))) := by
  constructor
  · constructor
    · intro hnone
      unfold get_best_video at hnone
      cases hmax : argmaxRank ((player_urls.filter eligibleUrl).filter
          (belowPref preferred)) with
      | some u => rw [hmax] at hnone; simp at hnone
      | none =>
          rw [hmax] at hnone
          exact argminRank_eq_none.mp hnone
    · intro hnil
      unfold get_best_video
      rw [hnil]
      simp [argmaxRank, argminRank]
  · intro u hu
    unfold get_best_video at hu
    cases hmax : argmaxRank ((player_urls.filter eligibleUrl).filter
        (belowPref preferred)) with
    | some w =>
        rw [hmax] at hu
        have hw : w = u := by simpa using hu
        rw [hw] at hmax
        obtain ⟨hmem, hbest⟩ := argmaxRank_spec hmax
        have hmem2 := List.mem_filter.mp hmem
        have hmem3 := List.mem_filter.mp hmem2.1
        have hle : rankNat u ≤ (qualityRank preferred).getD 0 := by
          have := hmem2.2
          simpa [belowPref] using this
        refine ⟨hmem3.1, hmem3.2, Or.inl ⟨hle, ?_⟩⟩
        intro v hv hvle
        exact hbest v (List.mem_filter.mpr ⟨hv, by simpa [belowPref] using hvle⟩)
    | none =>
        rw [hmax] at hu
        obtain ⟨hmem, hmin⟩ := argminRank_spec hu
        have hmem2 := List.mem_filter.mp hmem
        have hgt : ∀ v ∈ player_urls.filter eligibleUrl,
            (qualityRank preferred).getD 0 < rankNat v := by
          intro v hv
          by_contra hle
          have hvmem : v ∈ (player_urls.filter eligibleUrl).filter
              (belowPref preferred) :=
            List.mem_filter.mpr ⟨hv, by simp [belowPref]; omega⟩
          rw [argmaxRank_eq_none.mp hmax] at hvmem
          simp at hvmem
        exact ⟨hmem2.1, hmem2.2, Or.inr ⟨hgt, hmin⟩⟩

/-- Witness for c6_get_best_video_selection on the rendition set of the
in-src test test_get_best_video: low, medium and full_hd all carry URLs
and the preferred tier medium selects the medium rendition. -/
theorem c6_get_best_video_selection_witness :
    get_best_video
        [⟨"low.mp4", OkVideoType.low⟩, ⟨"medium.mp4", OkVideoType.medium⟩,
          ⟨"full_hd.mp4", OkVideoType.full_hd⟩] OkVideoType.medium ≠ none ∧
    get_best_video
        [⟨"low.mp4", OkVideoType.low⟩, ⟨"medium.mp4", OkVideoType.medium⟩,
          ⟨"full_hd.mp4", OkVideoType.full_hd⟩] OkVideoType.medium =
      some ⟨"medium.mp4", OkVideoType.medium⟩ := by
  have h := (c6_get_best_video_selection
      [⟨"low.mp4", OkVideoType.low⟩, ⟨"medium.mp4", OkVideoType.medium⟩,
        ⟨"full_hd.mp4", OkVideoType.full_hd⟩] OkVideoType.medium
      (by decide)).1
  refine ⟨fun hnone => ?_, by decide⟩
  have hmem : (⟨"medium.mp4", OkVideoType.medium⟩ : OkVideoUrl) ∈
      List.filter eligibleUrl
        [⟨"low.mp4", OkVideoType.low⟩, ⟨"medium.mp4", OkVideoType.medium⟩,
          ⟨"full_hd.mp4", OkVideoType.full_hd⟩] := by decide
  rw [h.mp hnone] at hmem
  simp at hmem

/-!  C5: map_post_dto_to_domain (application/mappers/post_mapper.py lines
46-103).  The audio DTO in src
(infrastructure/boosty_api/models/post/post_data_types/post_data_audio.py)
declares only type, url and title — no complete field — while
post_mapper.py line 96 reads data_chunk.complete, and line 97 references
DownloadContentTypeFilter.audio, which filtering.py does not define; so
processing any audio chunk raises AttributeError instead of skipping it.
Sub-mappers living in the absent application/mappers package carry their
payloads through unchanged here.  -/

/-- The data chunk union the mapper dispatches on (base_post_data.py plus
the audio DTO); the audio constructor mirrors its DTO and so carries no
complete flag. -/
inductive ChunkDTO
  | image (url : String)
  | text (payload : String)
  | header (payload : String)
  | link (payload : String)
  | listChunk (payload : String)
  | file (url : String) (title : String)
  | okVideo (title : String) (complete : Bool) (player_urls : List OkVideoUrl)
  | video (url : String)
  | audio (url : String) (title : String)
deriving DecidableEq, Repr

/-- Normalized chunks of domain/post_data_chunks.py. -/
inductive DomainChunk
  | image (url : String)
  | text (payload : String)
  | textualList (payload : String)
  | file (url : String) (filename : String)
  | boostyVideo (title : String) (url : String)
  | externalVideo (url : String)
deriving DecidableEq, Repr

/-- The AttributeError the audio branch raises: the DTO has no complete
attribute (and the filter enum no audio member). -/
inductive MapperError
  | audioAttributeError
deriving DecidableEq, Repr

/-- Python set.add on the incomplete-content set, represented as a
duplicate-free list. -/
def insertFilter (f : DownloadContentTypeFilter)
    (l : List DownloadContentTypeFilter) : List DownloadContentTypeFilter :=
  if l.contains f then l else l ++ [f]

/-- The chunk loop of map_post_dto_to_domain (post_mapper.py lines 62-98),
with the accumulated normalized chunks and incomplete-content set: an
ok_video with complete False is skipped and boosty_videos recorded;
a complete ok_video goes through get_best_video and is dropped when that
returns none; an audio chunk stops the mapper with AttributeError. -/
def mapChunks (preferred : OkVideoType) (signed_query : String) :
    List ChunkDTO → List DomainChunk → List DownloadContentTypeFilter →
    Except MapperError (List DomainChunk × List DownloadContentTypeFilter)
  | [], chunks, inc => Except.ok (chunks, inc)
  | c :: rest, chunks, inc =>
      match c with
      | ChunkDTO.image url =>
          mapChunks preferred signed_query rest
            (chunks ++ [DomainChunk.image url]) inc
      | ChunkDTO.text p =>
          mapChunks preferred signed_query rest
            (chunks ++ [DomainChunk.text p]) inc
      | ChunkDTO.header p =>
          mapChunks preferred signed_query rest
            (chunks ++ [DomainChunk.text p]) inc
      | ChunkDTO.link p =>
          mapChunks preferred signed_query rest
            (chunks ++ [DomainChunk.text p]) inc
      | ChunkDTO.listChunk p =>
          mapChunks preferred signed_query rest
            (chunks ++ [DomainChunk.textualList p]) inc
      | ChunkDTO.file url title =>
          mapChunks preferred signed_query rest
            (chunks ++ [DomainChunk.file (url ++ signed_query) title]) inc
      | ChunkDTO.okVideo title complete purls =>
          if complete then
            match get_best_video purls preferred with
            | none => mapChunks preferred signed_query rest chunks inc
            | some u =>
                mapChunks preferred signed_query rest
                  (chunks ++ [DomainChunk.boostyVideo title u.url]) inc
          else
            mapChunks preferred signed_query rest chunks
              (insertFilter DownloadContentTypeFilter.boosty_videos inc)
      | ChunkDTO.video url =>
          mapChunks preferred signed_query rest
            (chunks ++ [DomainChunk.externalVideo url]) inc
      | ChunkDTO.audio _ _ => Except.error MapperError.audioAttributeError

/-- map_post_dto_to_domain on the chunk list of a post DTO. -/
def map_post_dto_to_domain (chunks : List ChunkDTO) (preferred : OkVideoType)
    (signed_query : String) :
    Except MapperError (List DomainChunk × List DownloadContentTypeFilter) :=
  mapChunks preferred signed_query chunks [] []

/-- C5.  Evaluating the mapper at the failing input: a platform-video
chunk with complete False is indeed skipped with boosty_videos recorded
as incomplete, but as soon as an audio chunk appears — complete or not —
the mapper fails with AttributeError (the audio DTO in src has no
complete field and the filter enum has no audio member), instead of
skipping the chunk and recording an audio category as the claim states. -/
theorem c5_audio_chunk_mapper_failure :
    map_post_dto_to_domain
        [ChunkDTO.okVideo "v" false [⟨"u.mp4", OkVideoType.medium⟩]]
        OkVideoType.medium "" =
      Except.ok ([], [DownloadContentTypeFilter.boosty_videos]) ∧
    map_post_dto_to_domain
        [ChunkDTO.okVideo "v" false [⟨"u.mp4", OkVideoType.medium⟩],
          ChunkDTO.audio "a.mp3" "song"]
        OkVideoType.medium "" =
      Except.error MapperError.audioAttributeError :=
  ⟨rfl, rfl⟩

/-!  C3: the file download operation.  The module
infrastructure/file_downloader.py is imported by main.py line 43,
download_all_posts.py line 11 and download_single_post.py lines 39-44 but
is absent from src/; only its callers remain (download_single_post.py
lines 332-341 unlink the partial file a DownloadError carries before
re-raising).  The operation is therefore modelled from the spec.  -/

/-- One suspension point of the response stream: a body chunk arrives,
the connection fails mid-stream, or the task is cancelled. -/
inductive StreamEvent
  | chunk (bytes : Nat)
  | netFail
  | cancel
deriving DecidableEq, Repr

/-- How a download ended: success, DownloadError, DownloadCancelledError. -/
inductive DownloadOutcome
  | ok
  | errDownload
  | errCancelled
deriving DecidableEq, Repr

/-- Result of a download: outcome, whether the destination file exists
afterwards, and the byte count of a finished file. -/
structure DownloadResult where
  outcome : DownloadOutcome
  fileExists : Bool
  bytesWritten : Nat
deriving DecidableEq, Repr

/-- Modelled from the spec: the streaming loop of download_file from the
absent infrastructure/file_downloader.py, spec 4.3 — the body is written
chunk by chunk; a mid-stream failure or a cancellation deletes the
partially-written file before the corresponding error propagates. -/
def runStream : List StreamEvent → Nat → DownloadResult
  | [], written => ⟨DownloadOutcome.ok, true, written⟩
  | StreamEvent.chunk b :: rest, written => runStream rest (written + b)
  | StreamEvent.netFail :: _, _ => ⟨DownloadOutcome.errDownload, false, 0⟩
  | StreamEvent.cancel :: _, _ => ⟨DownloadOutcome.errCancelled, false, 0⟩

/-- Modelled from the spec: download_file of the absent
infrastructure/file_downloader.py, spec 4.3 — an HTTP status other than
200 raises DownloadError before anything is written; otherwise the body
is streamed with failure cleanup. -/
def download_file (status : Nat) (events : List StreamEvent) :
    DownloadResult :=
  if status ≠ 200 then ⟨DownloadOutcome.errDownload, false, 0⟩
  else runStream events 0

/-- Is the event a failure (connection failure or cancellation)? -/
def isFailureEvent : StreamEvent → Bool
  | StreamEvent.chunk _ => false
  | _ => true

theorem runStream_cancel :
    ∀ {events : List StreamEvent} {w : Nat},
      events.find? isFailureEvent = some StreamEvent.cancel →
      runStream events w = ⟨DownloadOutcome.errCancelled, false, 0⟩ := by
  intro events
  induction events with
  | nil => intro w h; simp [List.find?] at h
  | cons e rest ih =>
      intro w h
      cases e with
      | chunk b =>
          rw [List.find?_cons_of_neg _ (by simp [isFailureEvent])] at h
          exact ih h
      | netFail =>
          rw [List.find?_cons_of_pos _ (by simp [isFailureEvent])] at h
          simp at h
      | cancel => simp [runStream]

theorem runStream_netFail :
    ∀ {events : List StreamEvent} {w : Nat},
      events.find? isFailureEvent = some StreamEvent.netFail →
      runStream events w = ⟨DownloadOutcome.errDownload, false, 0⟩ := by
  intro events
  induction events with
  | nil => intro w h; simp [List.find?] at h
  | cons e rest ih =>
      intro w h
      cases e with
      | chunk b =>
          rw [List.find?_cons_of_neg _ (by simp [isFailureEvent])] at h
          exact ih h
      | cancel =>
          rw [List.find?_cons_of_pos _ (by simp [isFailureEvent])] at h
          simp at h
      | netFail => simp [runStream]

theorem runStream_cleanup :
    ∀ {events : List StreamEvent} {w : Nat},
      (runStream events w).outcome ≠ DownloadOutcome.ok →
      (runStream events w).fileExists = false := by
  intro events
  induction events with
  | nil => intro w h; simp [runStream] at h
  | cons e rest ih =>
      intro w h
      cases e with
      | chunk b => exact ih (by simpa [runStream] using h)
      | netFail => simp [runStream]
      | cancel => simp [runStream]

/-- C3.  A non-200 HTTP status yields DownloadError with no file on disk;
a run whose first failure event is a cancellation yields
DownloadCancelledError, a mid-stream connection failure yields
DownloadError; and whenever the outcome is not success the destination
file does not exist afterwards (the partial file was deleted before the
error propagated). -/
theorem c3_download_failure_cleanup (status : Nat)
    (events : List StreamEvent) :
    (status ≠ 200 → download_file status events =
      ⟨DownloadOutcome.errDownload, false, 0⟩) ∧
    (status = 200 → events.find? isFailureEvent = some StreamEvent.cancel →
      download_file status events =
        ⟨DownloadOutcome.errCancelled, false, 0⟩) ∧
    (status = 200 → events.find? isFailureEvent = some StreamEvent.netFail →
      download_file status events =
        ⟨DownloadOutcome.errDownload, false, 0⟩) ∧
    ((download_file status events).outcome ≠ DownloadOutcome.ok →
      (download_file status events).fileExists = false) := by
  refine ⟨?_, ?_, ?_, ?_⟩
  · intro hst
    simp [download_file, hst]
  · intro hst hc
    subst hst
    simpa [download_file] using runStream_cancel hc
  · intro hst hc
    subst hst
    simpa [download_file] using runStream_netFail hc
  · intro h
    unfold download_file at h ⊢
    by_cases hst : status ≠ 200
    · simp [hst]
    · rw [if_neg hst] at h ⊢
      exact runStream_cleanup h

/-- Witness for c3_download_failure_cleanup on concrete runs: a 404
response fails with DownloadError and leaves no file, and a download of
one 8 KiB chunk interrupted by cancellation fails with
DownloadCancelledError and leaves no file. -/
theorem c3_download_failure_cleanup_witness :
    download_file 404 [] = ⟨DownloadOutcome.errDownload, false, 0⟩ ∧
    download_file 200 [StreamEvent.chunk 8192, StreamEvent.cancel] =
      ⟨DownloadOutcome.errCancelled, false, 0⟩ :=
  ⟨(c3_download_failure_cleanup 404 []).1 (by decide),
    (c3_download_failure_cleanup 200
        [StreamEvent.chunk 8192, StreamEvent.cancel]).2.1 rfl (by decide)⟩

/-!  C8: extension guessing in the legacy file downloader
(download_manager/utils/base_file_downloader.py lines 47-78).  Its
DownloadFileConfig (lines 32-45) declares session, url, filename,
destination and on_status_update but no guess_extension field, so the
guess_extension keyword its callers pass (download_manager.py line 484
passes False for plain files because extensions are already in the title)
is discarded by the pydantic model, and download_file replaces the
extension whenever the response content type is recognized.  The legacy
sanitizer (download_manager/utils/path_sanitizer.py) additionally turns
dots into underscores, so the original extension never survives.  -/

/-- The character class of download_manager/utils/path_sanitizer.py line
9: the unsafe set plus the dot. -/
def unsafeCharsDM : List Char :=
  ['<', '>', ':', '"', '/', '\\', '|', '?', '*', '.']

/-- sanitize_string of download_manager/utils/path_sanitizer.py lines
6-10: unsafe characters, the dot included, become underscores. -/
def sanitize_string_dm (s : List Char) : List Char :=
  s.map (fun c => if unsafeCharsDM.contains c then '_' else c)

/-- Position of the dot that starts the pathlib suffix of a name: the
last dot, provided it is neither the leading nor the trailing character. -/
def suffixDotPos (name : List Char) : Option Nat :=
  match name.reverse.findIdx? (fun c => c == '.') with
  | none => none
  | some j =>
      if 0 < name.length - 1 - j ∧ name.length - 1 - j < name.length - 1 then
        some (name.length - 1 - j)
      else none

/-- PurePath.with_suffix as invoked at base_file_downloader.py line 62:
replace the suffix when the name has one, append otherwise. -/
def with_suffix (name ext : List Char) : List Char :=
  match suffixDotPos name with
  | none => name ++ ext
  | some i => name.take i ++ ext

/-- The file name the legacy download_file saves under (lines 55-62): the
sanitized filename, its suffix replaced by the guessed extension whenever
the server content type yields one.  No guess_extension flag enters the
computation, because DownloadFileConfig does not declare that field. -/
def savedFileName (filename : List Char) (guessedExt : Option (List Char)) :
    List Char :=
  match guessedExt with
  | some ext => with_suffix (sanitize_string_dm filename) ext
  | none => sanitize_string_dm filename

/-- C8.  Evaluating the legacy saved-name computation at the failing
input: a file named video.mp4 downloaded with guess_extension False and a
recognized content type video/mp4 is saved as video_mp4.mp4 — the
extension is replaced even though guess_extension was False — and even
with no recognized content type the original name is mangled to
video_mp4, so the original extension is never preserved. -/
theorem c8_guess_extension_ignored :
    savedFileName ("video.mp4".data) (some (".mp4".data)) =
      "video_mp4.mp4".data ∧
    "video_mp4.mp4" ≠ "video.mp4" ∧
    savedFileName ("video.mp4".data) none = "video_mp4".data := by
  refine ⟨by decide, by decide, by decide⟩

end BoostyDownloader
